import Mathlib

/-
Shallow embedding of `src/src/structures/GuildMember.js` (class `GuildMember`).

Modelling conventions:
  * Identifiers (role IDs, channel IDs, user IDs) are `String`s, as in the
    source (snowflake strings).
  * `util/Collection` (a subclass of the JS `Map`) is modelled as an ordered
    association list `List (String × α)`; `get` returns the first entry with
    the requested key, `set` overwrites the value in place when the key is
    already present (keeping its position, as JS `Map.set` does) and appends
    otherwise, `values` lists the values in insertion order.
  * A wire snapshot (the `data` argument of `setup`) is a record of the fields
    `setup` reads; `joined_at` is modelled as the numeric timestamp, so
    `new Date(data.joined_at).getTime()` is the identity on the model.
  * The guild (`this.guild`) is an external, independently mutated
    collaborator, so read views that consult it (`roles`) take the guild as an
    explicit argument representing its state at access time.
  * `client.rest.methods.*` is the external command executor; a call to it is
    modelled as a `Request` value.  Every mutating method is modelled as a
    function `GuildMember → args → GuildMember × Request`: the first component
    is the member's local state when the call returns (the source never
    assigns to `this` in these methods, which the embedding makes explicit),
    the second is the submitted request.
  * JS arrays that may mix role objects and ID strings (the
    `Collection<string, Role>|Role[]|string[]` parameters) are modelled by
    `RolesValue` / `RoleEntry`.
-/

namespace DiscordJS

/-- A role object, identified by `id`; `name` stands for the rest of the
role's payload, so that distinct role objects can share an `id`. -/
structure Role where
  id : String
  name : String
deriving DecidableEq

/-- Ordered string-keyed map, modelling `util/Collection` (a JS `Map`). -/
abbrev Collection (α : Type) := List (String × α)

/-- `Map.get`: first entry whose key matches, if any. -/
def Collection.get {α : Type} : Collection α → String → Option α
  | [], _ => none
  | p :: ps, k => if p.1 = k then some p.2 else Collection.get ps k

/-- `Map.set`: overwrite in place when the key exists, append otherwise. -/
def Collection.set {α : Type} : Collection α → String → α → Collection α
  | [], k, v => [(k, v)]
  | p :: ps, k, v => if p.1 = k then (k, v) :: ps else p :: Collection.set ps k v

/-- `Map.values()` in insertion order. -/
def Collection.values {α : Type} (c : Collection α) : List α :=
  c.map Prod.snd

/-- The slice of the guild the member code reads: its own id and its role
registry `guild.roles` (the Role Registry). -/
structure Guild where
  id : String
  roles : Collection Role
deriving DecidableEq

/-- The wire snapshot consumed by `GuildMember#setup`. -/
structure Snapshot where
  deaf : Bool
  mute : Bool
  self_mute : Bool
  self_deaf : Bool
  session_id : Option String
  channel_id : Option String
  nick : Option String
  user : String
  roles : List String
  joined_at : Int
deriving DecidableEq

/-- The mutable own fields of a `GuildMember` instance.  `user` is `none`
before the first snapshot (the constructor sets the empty object),
`speaking` is `none` until a voice-activity path sets it (the constructor
never assigns it and `setup` line 75 is the self-assignment
`this.speaking = this.speaking`). -/
structure GuildMember where
  serverDeaf : Bool
  serverMute : Bool
  selfMute : Bool
  selfDeaf : Bool
  voiceSessionID : Option String
  voiceChannelID : Option String
  speaking : Option Bool
  nickname : Option String
  user : Option String
  _roles : List String
  _joinDate : Int
deriving DecidableEq

/-- One entry of a JS `Role[]|string[]` array: a role object or a bare ID. -/
inductive RoleEntry where
  | roleObj (role : Role)
  | roleId (id : String)
deriving DecidableEq

/-- A `Collection<string, Role>|Role[]|string[]` value, both as the argument
of the role-mutation methods and as the `roles` payload submitted to the
executor (the source can forward the argument unchanged). -/
inductive RolesValue where
  | coll (c : Collection Role)
  | arr (entries : List RoleEntry)
deriving DecidableEq

/-- The `data` object passed to `GuildMember#edit`. -/
inductive EditData where
  | mute (b : Bool)
  | deaf (b : Bool)
  | channel (channelId : String)
  | roles (payload : RolesValue)
  | nick (n : String)
deriving DecidableEq

/-- A call into `client.rest.methods` (the Command Executor). -/
inductive Request where
  | updateGuildMember (d : EditData)
  | kickGuildMember
  | banGuildMember (deleteDays : Int)
  | deleteChannel
deriving DecidableEq

namespace GuildMember

/-- `GuildMember#setup(data)` (lines 34-86): overwrites every own field from
the snapshot; line 75 `this.speaking = this.speaking` keeps `speaking`;
line 85 assigns `this._joinDate` from the snapshot's `joined_at`. -/
def setup (m : GuildMember) (data : Snapshot) : GuildMember where
  serverDeaf := data.deaf
  serverMute := data.mute
  selfMute := data.self_mute
  selfDeaf := data.self_deaf
  voiceSessionID := data.session_id
  voiceChannelID := data.channel_id
  speaking := m.speaking
  nickname := data.nick
  user := some data.user
  _roles := data.roles
  _joinDate := data.joined_at

/-- The body of the `for (const roleID of this._roles)` loop of the `roles`
getter: look the ID up in the registry and, when found, `list.set(role.id, role)`. -/
def resolveStep (registry : Collection Role) (list : Collection Role) (roleID : String) : Collection Role :=
  match Collection.get registry roleID with
  | some role => Collection.set list role.id role
  | none => list

/-- The `roles` getter (lines 101-113): a fresh `Collection`, seeded with the
everyone role when `guild.roles.get(guild.id)` resolves, then every stored
role ID that resolves in the registry, in stored order.  `guild` is passed
explicitly: it is the registry's state at access time. -/
def roles (guild : Guild) (m : GuildMember) : Collection Role :=
  let list : Collection Role := []
  let list :=
    match Collection.get guild.roles guild.id with
    | some everyoneRole => Collection.set list everyoneRole.id everyoneRole
    | none => list
  m._roles.foldl (resolveStep guild.roles) list

/-- The `mute` getter: `this.selfMute || this.serverMute`. -/
def mute (m : GuildMember) : Bool :=
  m.selfMute || m.serverMute

/-- The `deaf` getter: `this.selfDeaf || this.serverDeaf`. -/
def deaf (m : GuildMember) : Bool :=
  m.selfDeaf || m.serverDeaf

/-- `GuildMember#edit(data)`: delegate to
`client.rest.methods.updateGuildMember(this, data)`; local state untouched. -/
def edit (m : GuildMember) (data : EditData) : GuildMember × Request :=
  (m, Request.updateGuildMember data)

/-- `GuildMember#setMute(mute)`. -/
def setMute (m : GuildMember) (muteArg : Bool) : GuildMember × Request :=
  edit m (EditData.mute muteArg)

/-- `GuildMember#setDeaf(deaf)`. -/
def setDeaf (m : GuildMember) (deafArg : Bool) : GuildMember × Request :=
  edit m (EditData.deaf deafArg)

/-- `GuildMember#setVoiceChannel(channel)`. -/
def setVoiceChannel (m : GuildMember) (channel : String) : GuildMember × Request :=
  edit m (EditData.channel channel)

/-- `GuildMember#setNickname(nick)`. -/
def setNickname (m : GuildMember) (nick : String) : GuildMember × Request :=
  edit m (EditData.nick nick)

/-- `GuildMember#setRoles(roles)`: `return this.edit({ roles })` — the
argument is forwarded unchanged, with no normalization. -/
def setRoles (m : GuildMember) (rolesArg : RolesValue) : GuildMember × Request :=
  edit m (EditData.roles rolesArg)

/-- `GuildMember#addRoles(roles)` (lines 201-210): for a `Collection`, copy
`this._roles` and push each value's `.id`; otherwise
`this._roles.concat(roles)` (entries appended as given, role objects not
normalized).  The stored IDs are bare strings, hence `RoleEntry.roleId`. -/
def addRoles (m : GuildMember) (rolesArg : RolesValue) : GuildMember × Request :=
  let allRoles : List RoleEntry :=
    match rolesArg with
    | RolesValue.coll c =>
        m._roles.map RoleEntry.roleId
          ++ (Collection.values c).map (fun role => RoleEntry.roleId role.id)
    | RolesValue.arr entries =>
        m._roles.map RoleEntry.roleId ++ entries
  edit m (EditData.roles (RolesValue.arr allRoles))

/-- `GuildMember#addRole(role)`: `return this.addRoles([role])`. -/
def addRole (m : GuildMember) (role : RoleEntry) : GuildMember × Request :=
  addRoles m (RolesValue.arr [role])

/-- `allRoles.indexOf(x)` followed by `allRoles.splice(index, 1)` when
`index >= 0`: remove the first occurrence of `x`, if any. -/
def removeFirst : List String → String → List String
  | [], _ => []
  | a :: as, x => if a = x then as else a :: removeFirst as x

/-- `role instanceof Role ? role.id : role` (line 235). -/
def RoleEntry.resolveId : RoleEntry → String
  | RoleEntry.roleObj role => role.id
  | RoleEntry.roleId i => i

/-- The request IDs `removeRoles` iterates over: `role.id` for each value of
a `Collection`, `role instanceof Role ? role.id : role` for an array. -/
def resolveIds : RolesValue → List String
  | RolesValue.coll c => (Collection.values c).map Role.id
  | RolesValue.arr entries => entries.map RoleEntry.resolveId

/-- The loop of `removeRoles` over a copy of `this._roles`: for each request
ID in order, splice out its first occurrence when present. -/
def removeRolesIds (stored : List String) (requested : List String) : List String :=
  requested.foldl removeFirst stored

/-- `GuildMember#removeRoles(roles)` (lines 226-240): copy `this._roles`,
splice out the first occurrence of each requested ID, submit the result
(a list of bare ID strings). -/
def removeRoles (m : GuildMember) (rolesArg : RolesValue) : GuildMember × Request :=
  let allRoles := removeRolesIds m._roles (resolveIds rolesArg)
  edit m (EditData.roles (RolesValue.arr (allRoles.map RoleEntry.roleId)))

/-- `GuildMember#removeRole(role)`: `return this.removeRoles([role])`. -/
def removeRole (m : GuildMember) (role : RoleEntry) : GuildMember × Request :=
  removeRoles m (RolesValue.arr [role])

/-- `GuildMember#kick()`: delegate to `kickGuildMember`. -/
def kick (m : GuildMember) : GuildMember × Request :=
  (m, Request.kickGuildMember)

/-- `GuildMember#ban(deleteDays = 0)` (lines 285-287): forward `deleteDays`
to `banGuildMember` unchanged. -/
def ban (m : GuildMember) (deleteDays : Int) : GuildMember × Request :=
  (m, Request.banGuildMember deleteDays)

/-- `ban()` with the argument omitted: the default parameter value is `0`. -/
def banDefault (m : GuildMember) : GuildMember × Request :=
  ban m 0

/-- `GuildMember#deleteDM()`. -/
def deleteDM (m : GuildMember) : GuildMember × Request :=
  (m, Request.deleteChannel)

end GuildMember

/-- A registry is well-keyed when every entry's key is its role's own `id`
(the shape the platform maintains: `guild.roles` maps `role.id` to `role`). -/
def wellKeyed (registry : Collection Role) : Prop :=
  ∀ p ∈ registry, (p.2).id = p.1

instance (registry : Collection Role) : Decidable (wellKeyed registry) :=
  inferInstanceAs (Decidable (∀ p ∈ registry, (p.2).id = p.1))

/-- Does a `roles` payload consist only of bare identifiers?  True exactly
when it is an array whose entries are all `RoleEntry.roleId`. -/
def RolesValue.allBareIds : RolesValue → Bool
  | RolesValue.coll _ => false
  | RolesValue.arr entries =>
      entries.all fun e =>
        match e with
        | RoleEntry.roleId _ => true
        | RoleEntry.roleObj _ => false

/-- `allBareIds` of the `roles` payload of a request, `false` when the
request carries no roles list. -/
def Request.rolesAllBareIds : Request → Bool
  | Request.updateGuildMember (EditData.roles payload) => payload.allBareIds
  | _ => false

/-- A baseline member state for concrete instances: fresh construction
(`user = {}`, `_roles = []`, nothing set by a snapshot yet). -/
def emptyMember : GuildMember where
  serverDeaf := false
  serverMute := false
  selfMute := false
  selfDeaf := false
  voiceSessionID := none
  voiceChannelID := none
  speaking := none
  nickname := none
  user := none
  _roles := []
  _joinDate := 0

/-- A member whose stored role-ID list is `l`, otherwise baseline. -/
def memberWith (l : List String) : GuildMember :=
  { emptyMember with _roles := l }

/-- The list the `roles` getter holds after the everyone-role seeding and
before the loop over `this._roles`: empty unless `guild.roles.get(guild.id)`
resolves. -/
def rolesSeed (g : Guild) : Collection Role :=
  match Collection.get g.roles g.id with
  | some everyoneRole => Collection.set [] everyoneRole.id everyoneRole
  | none => []

namespace Collection

theorem get_set_self {α : Type} (c : Collection α) (k : String) (v : α) :
    Collection.get (Collection.set c k v) k = some v := by
  induction c with
  | nil => simp [Collection.set, Collection.get]
  | cons p ps ih =>
      by_cases h : p.1 = k
      · simp [Collection.set, h, Collection.get]
      · simp [Collection.set, h, Collection.get, ih]

theorem get_set_ne {α : Type} (c : Collection α) (k : String) (v : α) (k' : String)
    (h : k' ≠ k) :
    Collection.get (Collection.set c k v) k' = Collection.get c k' := by
  induction c with
  | nil => simp [Collection.set, Collection.get, Ne.symm h]
  | cons p ps ih =>
      by_cases hp : p.1 = k
      · subst hp
        simp [Collection.set, Collection.get, Ne.symm h]
      · simp only [Collection.set, if_neg hp, Collection.get]
        rw [ih]

end Collection

theorem get_wellKeyed {registry : Collection Role} {k : String} {v : Role}
    (hw : wellKeyed registry) (h : Collection.get registry k = some v) :
    v.id = k := by
  induction registry with
  | nil => simp [Collection.get] at h
  | cons p ps ih =>
      by_cases hp : p.1 = k
      · simp [Collection.get, hp] at h
        have h2 := hw p (List.mem_cons_self p ps)
        rw [← h, h2]
        exact hp
      · simp [Collection.get, hp] at h
        exact ih (fun q hq => hw q (List.mem_cons_of_mem p hq)) h

theorem resolveStep_keeps (reg acc : Collection Role) (k a : String)
    (h : ∃ r', Collection.get acc k = some r' ∧ r'.id = k) :
    ∃ r', Collection.get (GuildMember.resolveStep reg acc a) k = some r' ∧ r'.id = k := by
  obtain ⟨r', hget, hid⟩ := h
  cases hreg : Collection.get reg a with
  | none =>
      have hstep : GuildMember.resolveStep reg acc a = acc := by
        simp [GuildMember.resolveStep, hreg]
      rw [hstep]
      exact ⟨r', hget, hid⟩
  | some role =>
      have hstep : GuildMember.resolveStep reg acc a = Collection.set acc role.id role := by
        simp [GuildMember.resolveStep, hreg]
      rw [hstep]
      by_cases hk : role.id = k
      · refine ⟨role, ?_, hk⟩
        rw [hk]
        exact Collection.get_set_self acc k role
      · refine ⟨r', ?_, hid⟩
        rw [Collection.get_set_ne acc role.id role k (fun hh => hk hh.symm)]
        exact hget

theorem foldl_resolve_keeps (reg : Collection Role) (k : String) (stored : List String)
    (acc : Collection Role)
    (h : ∃ r', Collection.get acc k = some r' ∧ r'.id = k) :
    ∃ r', Collection.get (stored.foldl (GuildMember.resolveStep reg) acc) k = some r' ∧ r'.id = k := by
  induction stored generalizing acc with
  | nil => exact h
  | cons a t ih => exact ih _ (resolveStep_keeps reg acc k a h)

theorem foldl_resolve_some (reg : Collection Role) (k : String) (r : Role)
    (stored : List String) (acc : Collection Role)
    (hmem : k ∈ stored) (hr : Collection.get reg k = some r) (hid : r.id = k) :
    ∃ r', Collection.get (stored.foldl (GuildMember.resolveStep reg) acc) k = some r' ∧ r'.id = k := by
  induction stored generalizing acc with
  | nil => cases hmem
  | cons a t ih =>
      rcases List.mem_cons.mp hmem with ha | ht
      · subst ha
        rw [List.foldl_cons]
        apply foldl_resolve_keeps
        have hstep : GuildMember.resolveStep reg acc k = Collection.set acc r.id r := by
          simp [GuildMember.resolveStep, hr]
        rw [hstep, hid]
        exact ⟨r, Collection.get_set_self acc k r, hid⟩
      · rw [List.foldl_cons]
        exact ih _ ht

theorem resolveStep_none (reg acc : Collection Role) (x a : String)
    (hw : wellKeyed reg) (hx : Collection.get reg x = none)
    (h : Collection.get acc x = none) :
    Collection.get (GuildMember.resolveStep reg acc a) x = none := by
  cases hreg : Collection.get reg a with
  | none =>
      have hstep : GuildMember.resolveStep reg acc a = acc := by
        simp [GuildMember.resolveStep, hreg]
      rw [hstep]
      exact h
  | some role =>
      have hstep : GuildMember.resolveStep reg acc a = Collection.set acc role.id role := by
        simp [GuildMember.resolveStep, hreg]
      rw [hstep]
      have hida : role.id = a := get_wellKeyed hw hreg
      have hax : x ≠ role.id := by
        rw [hida]
        intro hxa
        rw [← hxa] at hreg
        rw [hreg] at hx
        cases hx
      rw [Collection.get_set_ne acc role.id role x hax]
      exact h

theorem foldl_resolve_none (reg : Collection Role) (x : String) (stored : List String)
    (acc : Collection Role)
    (hw : wellKeyed reg) (hx : Collection.get reg x = none)
    (h : Collection.get acc x = none) :
    Collection.get (stored.foldl (GuildMember.resolveStep reg) acc) x = none := by
  induction stored generalizing acc with
  | nil => exact h
  | cons a t ih => exact ih _ (resolveStep_none reg acc x a hw hx h)

theorem removeFirst_of_not_mem {l : List String} {x : String} (h : x ∉ l) :
    GuildMember.removeFirst l x = l := by
  induction l with
  | nil => rfl
  | cons a t ih =>
      simp only [List.mem_cons, not_or] at h
      simp [GuildMember.removeFirst, Ne.symm h.1, ih h.2]

theorem removeFirst_append {l1 l2 : List String} {x : String} (h : x ∉ l1) :
    GuildMember.removeFirst (l1 ++ x :: l2) x = l1 ++ l2 := by
  induction l1 with
  | nil => simp [GuildMember.removeFirst]
  | cons a t ih =>
      simp only [List.mem_cons, not_or] at h
      simp [GuildMember.removeFirst, Ne.symm h.1, ih h.2]

theorem removeFirst_sublist (l : List String) (x : String) :
    (GuildMember.removeFirst l x).Sublist l := by
  induction l with
  | nil => simp [GuildMember.removeFirst]
  | cons a t ih =>
      by_cases h : a = x
      · simp only [GuildMember.removeFirst, if_pos h]
        exact List.sublist_cons_self a t
      · simp only [GuildMember.removeFirst, if_neg h]
        exact List.Sublist.cons₂ a ih

theorem removeFirst_nodup {l : List String} (x : String) (h : l.Nodup) :
    (GuildMember.removeFirst l x).Nodup :=
  List.Nodup.sublist (removeFirst_sublist l x) h

theorem removeFirst_eq_filter {l : List String} {x : String} (h : l.Nodup) :
    GuildMember.removeFirst l x = l.filter (fun y => decide (y ≠ x)) := by
  induction l with
  | nil => rfl
  | cons a t ih =>
      obtain ⟨ha, ht⟩ := List.nodup_cons.mp h
      by_cases hax : a = x
      · rw [hax] at ha ⊢
        have h0 : GuildMember.removeFirst (x :: t) x = t := by
          simp [GuildMember.removeFirst]
        rw [h0, List.filter_cons_of_neg (by simp)]
        refine (List.filter_eq_self.mpr (fun y hy => ?_)).symm
        simp only [decide_eq_true_eq]
        exact fun hyx => ha (hyx ▸ hy)
      · have h0 : GuildMember.removeFirst (a :: t) x = a :: GuildMember.removeFirst t x := by
          simp [GuildMember.removeFirst, hax]
        rw [h0, List.filter_cons_of_pos (by simp [hax]), ih ht]

theorem removeRolesIds_eq_filter {stored : List String} (requested : List String)
    (h : stored.Nodup) :
    GuildMember.removeRolesIds stored requested
      = stored.filter (fun y => decide (y ∉ requested)) := by
  induction requested generalizing stored with
  | nil =>
      simp only [GuildMember.removeRolesIds, List.foldl_nil]
      exact (List.filter_eq_self.mpr (fun a _ => by simp)).symm
  | cons r rs ih =>
      have h1 : GuildMember.removeRolesIds stored (r :: rs)
          = GuildMember.removeRolesIds (GuildMember.removeFirst stored r) rs := rfl
      rw [h1, ih (removeFirst_nodup r h), removeFirst_eq_filter h, List.filter_filter]
      apply List.filter_congr
      intro a _
      by_cases h1 : a = r <;> by_cases h2 : a ∈ rs <;> simp [h1, h2]

theorem roles_eq_seed_foldl (g : Guild) (m : GuildMember) :
    GuildMember.roles g m
      = m._roles.foldl (GuildMember.resolveStep g.roles) (rolesSeed g) := rfl

theorem rolesSeed_none (g : Guild) (x : String) (hw : wellKeyed g.roles)
    (hx : Collection.get g.roles x = none) :
    Collection.get (rolesSeed g) x = none := by
  cases hg : Collection.get g.roles g.id with
  | none =>
      have h1 : rolesSeed g = [] := by simp [rolesSeed, hg]
      rw [h1]
      rfl
  | some ev =>
      have h1 : rolesSeed g = Collection.set [] ev.id ev := by simp [rolesSeed, hg]
      have hev : ev.id = g.id := get_wellKeyed hw hg
      have hne : x ≠ ev.id := by
        rw [hev]
        intro hxg
        rw [← hxg] at hg
        rw [hg] at hx
        cases hx
      rw [h1, Collection.get_set_ne [] ev.id ev x hne]
      rfl

/-- C1 counterexample: a registry with no entry under the guild's own
identifier, and a member with a non-empty stored role list.  The `roles`
getter's result holds exactly the one stored role and no role whose
identifier equals the guild's identifier, so the claim as stated
("regardless of the registry's contents") fails. -/
theorem roles_default_missing_registry_cex :
    (memberWith ["R1"])._roles ≠ []
  ∧ GuildMember.roles ⟨"G", [("R1", ⟨"R1", "one"⟩)]⟩ (memberWith ["R1"])
      = [("R1", (⟨"R1", "one"⟩ : Role))]
  ∧ Collection.get
      (GuildMember.roles ⟨"G", [("R1", ⟨"R1", "one"⟩)]⟩ (memberWith ["R1"])) "G" = none := by
  decide

/-- C1 (amended): whenever the Role Registry maps the guild's own identifier
to a role bearing that identifier, the `roles` getter's result contains the
default role (an entry under the guild's identifier whose role carries that
identifier), regardless of the registry's other contents, its population
order, or the stored role list. -/
theorem roles_contains_default_of_registry_entry (g : Guild) (m : GuildMember) (r : Role)
    (hr : Collection.get g.roles g.id = some r) (hid : r.id = g.id) :
    ∃ r', Collection.get (GuildMember.roles g m) g.id = some r' ∧ r'.id = g.id := by
  rw [roles_eq_seed_foldl]
  apply foldl_resolve_keeps
  have h1 : rolesSeed g = Collection.set [] r.id r := by simp [rolesSeed, hr]
  rw [h1, hid]
  exact ⟨r, Collection.get_set_self [] g.id r, hid⟩

/-- Witness for C1 (amended) at a concrete registry holding the everyone
role and one ordinary role. -/
theorem roles_contains_default_of_registry_entry_witness :
    (Collection.get (Guild.mk "G" [("G", ⟨"G", "everyone"⟩), ("R1", ⟨"R1", "one"⟩)]).roles
        (Guild.mk "G" [("G", ⟨"G", "everyone"⟩), ("R1", ⟨"R1", "one"⟩)]).id
      = some (⟨"G", "everyone"⟩ : Role))
  ∧ (Role.mk "G" "everyone").id = (Guild.mk "G" [("G", ⟨"G", "everyone"⟩), ("R1", ⟨"R1", "one"⟩)]).id
  ∧ (∃ r', Collection.get
        (GuildMember.roles (Guild.mk "G" [("G", ⟨"G", "everyone"⟩), ("R1", ⟨"R1", "one"⟩)])
          (memberWith ["R1"]))
        (Guild.mk "G" [("G", ⟨"G", "everyone"⟩), ("R1", ⟨"R1", "one"⟩)]).id = some r'
      ∧ r'.id = (Guild.mk "G" [("G", ⟨"G", "everyone"⟩), ("R1", ⟨"R1", "one"⟩)]).id) :=
  ⟨by decide, by decide,
   roles_contains_default_of_registry_entry
     (Guild.mk "G" [("G", ⟨"G", "everyone"⟩), ("R1", ⟨"R1", "one"⟩)])
     (memberWith ["R1"]) (Role.mk "G" "everyone") (by decide) (by decide)⟩

/-- C8: the `roles` getter is a live view over the registry.  With the same
member state (no refresh), a stored identifier that resolves in registry `R`
yields an entry in the result, and once the identifier no longer resolves
(registry `R'`), the entry is gone from the result — silently dropped, the
getter stays total.  `wellKeyed` states the platform's registry shape: every
entry is keyed by its role's own identifier. -/
theorem roles_view_live_spec (gid : String) (R R' : Collection Role) (m : GuildMember)
    (x : String) (r : Role)
    (hwR : wellKeyed R) (hwR' : wellKeyed R') (hx : x ∈ m._roles)
    (hfound : Collection.get R x = some r) (hgone : Collection.get R' x = none) :
    (∃ r1, Collection.get (GuildMember.roles ⟨gid, R⟩ m) x = some r1 ∧ r1.id = x)
  ∧ Collection.get (GuildMember.roles ⟨gid, R'⟩ m) x = none := by
  constructor
  · have hid : r.id = x := get_wellKeyed hwR hfound
    rw [roles_eq_seed_foldl]
    exact foldl_resolve_some R x r m._roles (rolesSeed ⟨gid, R⟩) hx hfound hid
  · rw [roles_eq_seed_foldl]
    exact foldl_resolve_none R' x m._roles (rolesSeed ⟨gid, R'⟩) hwR' hgone
      (rolesSeed_none ⟨gid, R'⟩ x hwR' hgone)

/-- Witness for C8: role "X" is present while the registry holds it and
absent from the view after the registry entry is gone, with the member
unchanged in between. -/
theorem roles_view_live_spec_witness :
    (wellKeyed [("G", ⟨"G", "everyone"⟩), ("X", ⟨"X", "xrole"⟩)]
  ∧ wellKeyed [("G", ⟨"G", "everyone"⟩)]
  ∧ "X" ∈ (memberWith ["X"])._roles
  ∧ Collection.get [("G", ⟨"G", "everyone"⟩), ("X", ⟨"X", "xrole"⟩)] "X"
      = some (⟨"X", "xrole"⟩ : Role)
  ∧ Collection.get [("G", (⟨"G", "everyone"⟩ : Role))] "X" = none)
  ∧ ((∃ r1, Collection.get
        (GuildMember.roles ⟨"G", [("G", ⟨"G", "everyone"⟩), ("X", ⟨"X", "xrole"⟩)]⟩
          (memberWith ["X"])) "X" = some r1 ∧ r1.id = "X")
    ∧ Collection.get
        (GuildMember.roles ⟨"G", [("G", ⟨"G", "everyone"⟩)]⟩ (memberWith ["X"])) "X" = none) :=
  ⟨⟨by decide, by decide, by decide, by decide, by decide⟩,
   roles_view_live_spec "G" [("G", ⟨"G", "everyone"⟩), ("X", ⟨"X", "xrole"⟩)]
     [("G", ⟨"G", "everyone"⟩)] (memberWith ["X"]) "X" (Role.mk "X" "xrole")
     (by decide) (by decide) (by decide) (by decide) (by decide)⟩

/-- C2 counterexample: the stored list already holds "A", yet
`addRoles(["A"])` submits "A" twice — the source concatenates and never
checks for an existing identifier, so "duplicates not re-added" fails. -/
theorem addRoles_duplicates_existing_id_cex :
    (GuildMember.addRoles (memberWith ["A"]) (RolesValue.arr [RoleEntry.roleId "A"])).2
      = Request.updateGuildMember
          (EditData.roles (RolesValue.arr [RoleEntry.roleId "A", RoleEntry.roleId "A"]))
  ∧ ¬ ([RoleEntry.roleId "A", RoleEntry.roleId "A"] : List RoleEntry).Nodup := by
  decide

/-- C2 (amended): `addRoles` submits the stored list followed by the
requested additions in argument order — pre-existing order preserved,
additions appended as given (values of a `Collection` normalized to their
identifier), with NO duplicate check: an identifier already stored is
appended again.  `addRole(x)` behaves as `addRoles([x])`. -/
theorem addRoles_concat_spec (m : GuildMember) (entries : List RoleEntry)
    (c : Collection Role) (e : RoleEntry) :
    (GuildMember.addRoles m (RolesValue.arr entries)).2
      = Request.updateGuildMember (EditData.roles
          (RolesValue.arr (m._roles.map RoleEntry.roleId ++ entries)))
  ∧ (GuildMember.addRoles m (RolesValue.coll c)).2
      = Request.updateGuildMember (EditData.roles
          (RolesValue.arr (m._roles.map RoleEntry.roleId
            ++ (Collection.values c).map (fun role => RoleEntry.roleId role.id))))
  ∧ GuildMember.addRole m e = GuildMember.addRoles m (RolesValue.arr [e]) :=
  ⟨rfl, rfl, rfl⟩

/-- C3 counterexample: `setRoles` given a role object forwards the object
itself, and `addRoles` given an array of role objects appends the objects —
neither payload consists only of bare identifiers. -/
theorem setRoles_unnormalized_payload_cex :
    (GuildMember.setRoles (memberWith []) (RolesValue.arr [RoleEntry.roleObj ⟨"R1", "one"⟩])).2
      = Request.updateGuildMember
          (EditData.roles (RolesValue.arr [RoleEntry.roleObj ⟨"R1", "one"⟩]))
  ∧ Request.rolesAllBareIds
      ((GuildMember.setRoles (memberWith []) (RolesValue.arr [RoleEntry.roleObj ⟨"R1", "one"⟩])).2)
      = false
  ∧ Request.rolesAllBareIds
      ((GuildMember.addRoles (memberWith []) (RolesValue.arr [RoleEntry.roleObj ⟨"R1", "one"⟩])).2)
      = false := by
  decide

/-- C3 (amended): normalization of role objects to identifiers happens only
in `addRoles`'s `Collection` branch and in `removeRoles`; `setRoles`
forwards its argument unchanged (and `addRoles` given an array appends the
entries unchanged), so role objects in those inputs reach the Command
Executor un-normalized. -/
theorem normalization_boundary_spec (m : GuildMember) (c : Collection Role)
    (input v : RolesValue) :
    Request.rolesAllBareIds ((GuildMember.addRoles m (RolesValue.coll c)).2) = true
  ∧ Request.rolesAllBareIds ((GuildMember.removeRoles m input).2) = true
  ∧ (GuildMember.setRoles m v).2 = Request.updateGuildMember (EditData.roles v) := by
  refine ⟨?_, ?_, rfl⟩
  · simp only [GuildMember.addRoles, GuildMember.edit, Request.rolesAllBareIds,
      RolesValue.allBareIds, List.all_eq_true]
    intro e he
    rcases List.mem_append.mp he with h1 | h1 <;>
      obtain ⟨y, _, rfl⟩ := List.mem_map.mp h1 <;> rfl
  · simp only [GuildMember.removeRoles, GuildMember.edit, Request.rolesAllBareIds,
      RolesValue.allBareIds, List.all_eq_true]
    intro e he
    obtain ⟨y, _, rfl⟩ := List.mem_map.mp he
    rfl

/-- C4 counterexample: `ban(-1)` submits -1 to the executor — the argument
is neither rejected nor clamped into [0, 7] before submission. -/
theorem ban_out_of_range_submitted_cex :
    (GuildMember.ban (memberWith []) (-1)).2 = Request.banGuildMember (-1)
  ∧ ¬ (0 ≤ (-1 : Int) ∧ (-1 : Int) ≤ 7) := by
  decide

/-- C4 (amended): `ban(d)` submits `d` to the executor unchanged — no
validation or clamping is performed on the history-deletion days — and the
default when the argument is omitted is 0. -/
theorem ban_passthrough_spec (m : GuildMember) (deleteDays : Int) :
    (GuildMember.ban m deleteDays).2 = Request.banGuildMember deleteDays
  ∧ GuildMember.banDefault m = GuildMember.ban m 0 :=
  ⟨rfl, rfl⟩

/-- C5 counterexample: two snapshots differing only in `joined_at`; the
second refresh overwrites the join timestamp set by the first, so
"never mutated by a refresh" fails. -/
theorem setup_overwrites_joinDate_cex :
    (GuildMember.setup
        (GuildMember.setup emptyMember ⟨false, false, false, false, none, none, none, "U", [], 1⟩)
        ⟨false, false, false, false, none, none, none, "U", [], 2⟩)._joinDate = 2
  ∧ (GuildMember.setup emptyMember
        ⟨false, false, false, false, none, none, none, "U", [], 1⟩)._joinDate = 1
  ∧ (2 : Int) ≠ 1 := by
  decide

/-- C5 (amended): every application of `setup` (refresh) sets the join
timestamp to the applied snapshot's `joined_at`; consequently it is
unchanged across a refresh only when the snapshots carry equal `joined_at`
values, not unconditionally. -/
theorem setup_sets_joinDate_from_snapshot (m : GuildMember) (data : Snapshot) :
    (GuildMember.setup m data)._joinDate = data.joined_at :=
  rfl

/-- C6: every mutation operation returns the member's local state unchanged
and only submits a request to the executor; no field (stored role list,
flags, nickname, voice IDs, user, join timestamp) is touched by the call
itself. -/
theorem mutations_preserve_local_state (m : GuildMember) (b : Bool) (ch n : String)
    (v : RolesValue) (e : RoleEntry) (d : Int) (ed : EditData) :
    (GuildMember.setMute m b).1 = m
  ∧ (GuildMember.setDeaf m b).1 = m
  ∧ (GuildMember.setVoiceChannel m ch).1 = m
  ∧ (GuildMember.setNickname m n).1 = m
  ∧ (GuildMember.setRoles m v).1 = m
  ∧ (GuildMember.addRole m e).1 = m
  ∧ (GuildMember.addRoles m v).1 = m
  ∧ (GuildMember.removeRole m e).1 = m
  ∧ (GuildMember.removeRoles m v).1 = m
  ∧ (GuildMember.kick m).1 = m
  ∧ (GuildMember.ban m d).1 = m
  ∧ (GuildMember.edit m ed).1 = m :=
  ⟨rfl, rfl, rfl, rfl, rfl, rfl, rfl, rfl, rfl, rfl, rfl, rfl⟩

/-- C9: after two refreshes the snapshot-owned fields hold exactly the
second snapshot's values with no residue from the first, while `speaking`
still holds whatever value it had before either refresh (the
attribute-refresh path never resets it). -/
theorem setup_second_snapshot_wins (m : GuildMember) (s1 s2 : Snapshot) :
    (GuildMember.setup (GuildMember.setup m s1) s2).serverDeaf = s2.deaf
  ∧ (GuildMember.setup (GuildMember.setup m s1) s2).serverMute = s2.mute
  ∧ (GuildMember.setup (GuildMember.setup m s1) s2).selfMute = s2.self_mute
  ∧ (GuildMember.setup (GuildMember.setup m s1) s2).selfDeaf = s2.self_deaf
  ∧ (GuildMember.setup (GuildMember.setup m s1) s2).voiceSessionID = s2.session_id
  ∧ (GuildMember.setup (GuildMember.setup m s1) s2).voiceChannelID = s2.channel_id
  ∧ (GuildMember.setup (GuildMember.setup m s1) s2).nickname = s2.nick
  ∧ (GuildMember.setup (GuildMember.setup m s1) s2).user = some s2.user
  ∧ (GuildMember.setup (GuildMember.setup m s1) s2)._roles = s2.roles
  ∧ (GuildMember.setup (GuildMember.setup m s1) s2).speaking = m.speaking :=
  ⟨rfl, rfl, rfl, rfl, rfl, rfl, rfl, rfl, rfl, rfl⟩

/-- C7: with a duplicate-free stored list, `removeRoles` submits exactly the
stored list minus the requested identifiers (role objects normalized),
preserving the relative order of the remaining entries; identifiers not
present are silently skipped.  And the add-then-remove scenario: starting
without A or B, applying the list submitted by `addRoles([A, B])` and then
removing A leaves the stored list `stored ++ [B]` — B present, A absent,
B's relative position preserved. -/
theorem removeRoles_minus_spec (m : GuildMember) (input : RolesValue)
    (stored : List String) (A B : String)
    (hm : m._roles.Nodup) (_hs : stored.Nodup) (hA : A ∉ stored) (hAB : A ≠ B) :
    (GuildMember.removeRoles m input).2
      = Request.updateGuildMember (EditData.roles (RolesValue.arr
          ((m._roles.filter (fun y => decide (y ∉ GuildMember.resolveIds input))).map RoleEntry.roleId)))
  ∧ GuildMember.removeRolesIds (stored ++ [A, B]) [A] = stored ++ [B]
  ∧ B ∈ GuildMember.removeRolesIds (stored ++ [A, B]) [A]
  ∧ A ∉ GuildMember.removeRolesIds (stored ++ [A, B]) [A] := by
  have hscenario : GuildMember.removeRolesIds (stored ++ [A, B]) [A] = stored ++ [B] := by
    show GuildMember.removeFirst (stored ++ A :: [B]) A = stored ++ [B]
    exact removeFirst_append hA
  refine ⟨?_, hscenario, ?_, ?_⟩
  · have h1 : (GuildMember.removeRoles m input).2
        = Request.updateGuildMember (EditData.roles (RolesValue.arr
            ((GuildMember.removeRolesIds m._roles (GuildMember.resolveIds input)).map RoleEntry.roleId))) := rfl
    rw [h1, removeRolesIds_eq_filter (GuildMember.resolveIds input) hm]
  · rw [hscenario]
    exact List.mem_append_right stored (List.mem_singleton.mpr rfl)
  · rw [hscenario]
    intro hmem
    rcases List.mem_append.mp hmem with h1 | h1
    · exact hA h1
    · exact hAB (List.mem_singleton.mp h1)

/-- Witness for C7 at a member storing ["A", "B"], a removal request given
as a role object (exercising normalization), and the scenario at
stored = [], A = "A", B = "B". -/
theorem removeRoles_minus_spec_witness :
    ((memberWith ["A", "B"])._roles.Nodup
  ∧ ([] : List String).Nodup
  ∧ "A" ∉ ([] : List String)
  ∧ "A" ≠ "B")
  ∧ ((GuildMember.removeRoles (memberWith ["A", "B"])
        (RolesValue.arr [RoleEntry.roleObj ⟨"A", "one"⟩])).2
      = Request.updateGuildMember (EditData.roles (RolesValue.arr
          (((memberWith ["A", "B"])._roles.filter
              (fun y => decide (y ∉ GuildMember.resolveIds (RolesValue.arr [RoleEntry.roleObj ⟨"A", "one"⟩])))).map
            RoleEntry.roleId)))
    ∧ GuildMember.removeRolesIds (([] : List String) ++ ["A", "B"]) ["A"] = [] ++ ["B"]
    ∧ "B" ∈ GuildMember.removeRolesIds (([] : List String) ++ ["A", "B"]) ["A"]
    ∧ "A" ∉ GuildMember.removeRolesIds (([] : List String) ++ ["A", "B"]) ["A"]) :=
  ⟨⟨by decide, by decide, by decide, by decide⟩,
   removeRoles_minus_spec (memberWith ["A", "B"])
     (RolesValue.arr [RoleEntry.roleObj ⟨"A", "one"⟩]) [] "A" "B"
     (by decide) (by decide) (by decide) (by decide)⟩

/-- C10: `removeRoles` removes only the first occurrence of a requested
identifier: when the stored list splits as `l1 ++ x :: l2` with no `x` in
`l1`, the submitted list is `l1 ++ l2` — any further occurrences of `x`
inside `l2` remain in the submitted list. -/
theorem removeRoles_first_occurrence_only (m : GuildMember) (x : String)
    (l1 l2 : List String)
    (hsplit : m._roles = l1 ++ x :: l2) (hx : x ∉ l1) :
    (GuildMember.removeRoles m (RolesValue.arr [RoleEntry.roleId x])).2
      = Request.updateGuildMember (EditData.roles
          (RolesValue.arr ((l1 ++ l2).map RoleEntry.roleId))) := by
  have h1 : (GuildMember.removeRoles m (RolesValue.arr [RoleEntry.roleId x])).2
      = Request.updateGuildMember (EditData.roles (RolesValue.arr
          ((GuildMember.removeRolesIds m._roles [x]).map RoleEntry.roleId))) := rfl
  have h2 : GuildMember.removeRolesIds (l1 ++ x :: l2) [x] = l1 ++ l2 := by
    show GuildMember.removeFirst (l1 ++ x :: l2) x = l1 ++ l2
    exact removeFirst_append hx
  rw [h1, hsplit, h2]

/-- Witness for C10 at stored list ["B", "A", "A"]: removing "A" submits
["B", "A"] — the second occurrence of "A" survives. -/
theorem removeRoles_first_occurrence_only_witness :
    ((memberWith ["B", "A", "A"])._roles = ["B"] ++ "A" :: ["A"]
  ∧ "A" ∉ (["B"] : List String))
  ∧ (GuildMember.removeRoles (memberWith ["B", "A", "A"])
        (RolesValue.arr [RoleEntry.roleId "A"])).2
      = Request.updateGuildMember (EditData.roles
          (RolesValue.arr (((["B"] : List String) ++ ["A"]).map RoleEntry.roleId))) :=
  ⟨⟨by decide, by decide⟩,
   removeRoles_first_occurrence_only (memberWith ["B", "A", "A"]) "A" ["B"] ["A"]
     (by decide) (by decide)⟩

end DiscordJS
